import Mathlib

set_option maxRecDepth 40000
set_option maxHeartbeats 2000000

/-!
Verification of the FIX 4.2 order-entry client
(`market-simulator/tools/client.py`).

The Python module is shallowly embedded here.  Python strings are
modelled as `List Char` (`PyStr`); `ord c` is `Char.toNat`; numeric
order parameters (`qty`, `price`, which are Python floats at the call
site) are modelled as `Rat`; the ambient clock (`fix_now`,
`time.time()`) and the global sequence counter are passed explicitly as
inputs, following the spec's note that timestamp and identifier
generation are treated as inputs for testing.  `str.encode("ascii")`,
which raises `UnicodeEncodeError` on non-ASCII input, is modelled as an
`Option`-returning encoder.
-/

namespace FixClient

/-- A Python `str`, as a list of unicode code points. -/
abbrev PyStr := List Char

/-- The FIX field delimiter byte, `SOH = "\x01"` in the source. -/
def SOHc : Char := '\x01'

/-- The delimiter as a one-character string. -/
def SOH : PyStr := [SOHc]

def TAG_BEGIN_STRING : Int := 8
def TAG_BODY_LENGTH : Int := 9
def TAG_MSG_TYPE : Int := 35
def TAG_SENDER_COMP : Int := 49
def TAG_TARGET_COMP : Int := 56
def TAG_MSG_SEQ_NUM : Int := 34
def TAG_SENDING_TIME : Int := 52
def TAG_CHECKSUM : Int := 10
def TAG_CL_ORD_ID : Int := 11
def TAG_HANDL_INST : Int := 21
def TAG_SYMBOL : Int := 55
def TAG_SIDE : Int := 54
def TAG_TRANSACT_TIME : Int := 60
def TAG_ORDER_QTY : Int := 38
def TAG_ORD_TYPE : Int := 40
def TAG_PRICE : Int := 44

/-- The decimal digit character for `d < 10`. -/
def digitChar (d : Nat) : Char := Char.ofNat (48 + d)

/-- Fuel-driven accumulator loop producing the decimal digits of `n`
(most significant first), prepended to `acc`.  Structural recursion on
the fuel keeps the definition kernel-reducible. -/
def toDigitsGo : Nat → Nat → PyStr → PyStr
  | 0, _, acc => acc
  | fuel + 1, n, acc =>
    let acc2 := digitChar (n % 10) :: acc
    if n < 10 then acc2 else toDigitsGo fuel (n / 10) acc2

/-- Python `str(n)` for a natural number `n`. -/
def pyStrNat (n : Nat) : PyStr := toDigitsGo (n + 1) n []

/-- Python `str(i)` for an `int` `i` (decimal, `-` sign when negative). -/
def pyStrInt (i : Int) : PyStr :=
  if i < 0 then '-' :: pyStrNat i.natAbs else pyStrNat i.toNat

/-- Source: the field encoder `fld` — an f-string rendering the tag in
decimal, then `=`, then the value, then the delimiter.  The value
argument here is the canonical textual rendering of the Python value
(rendering happens at each call site below, mirroring the f-string). -/
def fld (tag : Int) (val : PyStr) : PyStr :=
  pyStrInt tag ++ ['='] ++ val ++ SOH

/-- Python sum of `ord(c)` over the characters of `raw`. -/
def ordSum (s : PyStr) : Nat := (s.map Char.toNat).sum

/-- Python `str.zfill w`: pad on the left with `'0'` up to width `w`.
(The sign-aware case of `zfill` is never exercised by the source, which
only applies it to digit strings.) -/
def zfill (w : Nat) (s : PyStr) : PyStr :=
  List.replicate (w - s.length) '0' ++ s

/-- Source: `checksum(raw)` — the byte sum of `raw` modulo 256,
rendered in decimal and zero-padded to 3 digits. -/
def checksum (raw : PyStr) : PyStr := zfill 3 (pyStrNat (ordSum raw % 256))

/-- A UTC wall-clock instant, the input to `fix_now`
(`datetime.now(timezone.utc)`). -/
structure DT where
  year : Nat
  month : Nat
  day : Nat
  hour : Nat
  minute : Nat
  second : Nat

def pad2 (n : Nat) : PyStr := zfill 2 (pyStrNat n)

def pad4 (n : Nat) : PyStr := zfill 4 (pyStrNat n)

/-- Source: `fix_now()` = `strftime("%Y%m%d-%H:%M:%S")` on the current
UTC time, here taken as the explicit input `t`. -/
def fix_now (t : DT) : PyStr :=
  pad4 t.year ++ pad2 t.month ++ pad2 t.day ++ ['-']
    ++ pad2 t.hour ++ [':'] ++ pad2 t.minute ++ [':'] ++ pad2 t.second

/-- Initial value of the module-global `_seq`. -/
def SEQ_INIT : Nat := 0

/-- Source: `next_seq()` — `_seq += 1; return _seq`, as a state
transition: first component the returned value, second the new state. -/
def next_seq (s : Nat) : Nat × Nat := (s + 1, s + 1)

/-- Source: `FIXTerminal._reset_seq` — sets the global `_seq` back to 0. -/
def reset_seq (_s : Nat) : Nat := 0

/-- Counter state after `k` calls to `next_seq`, starting from `SEQ_INIT`. -/
def seqState : Nat → Nat
  | 0 => SEQ_INIT
  | k + 1 => (next_seq (seqState k)).2

/-- Value returned by the `(k+1)`-st call to `next_seq` (0-indexed `k`). -/
def seqVal (k : Nat) : Nat := (next_seq (seqState k)).1

/-- Python `int(q)`: truncation toward zero. -/
def pyInt (q : Rat) : Int := if 0 ≤ q then q.floor else q.ceil

/-- Round a rational to the nearest integer, ties to even — the rounding
used by Python's fixed-point float formatting. -/
def rhe (x : Rat) : Int :=
  let f := x.floor
  let r := x - (f : Rat)
  if r < 1 / 2 then f
  else if 1 / 2 < r then f + 1
  else if f % 2 = 0 then f else f + 1

/-- The four fractional digit characters of the fixed-point rendering
of `m / 10000`. -/
def frac4 (m : Nat) : PyStr :=
  [digitChar (m / 1000 % 10), digitChar (m / 100 % 10),
   digitChar (m / 10 % 10), digitChar (m % 10)]

/-- Python format-spec `.4f` rendering for non-negative `q`. -/
def format4abs (q : Rat) : PyStr :=
  let m := (rhe (q * 10000)).toNat
  pyStrNat (m / 10000) ++ ['.'] ++ frac4 (m % 10000)

/-- Python format-spec `.4f` applied to `price`: fixed-point rendering
with exactly four fractional digits. -/
def format4 (q : Rat) : PyStr :=
  if q < 0 then '-' :: format4abs (-q) else format4abs q

/-- The inputs of `build_new_order_single`.  `sender`, `target`,
`symbol`, `side`, `qty`, `price` are the six Python parameters; `t` is
the UTC instant read by `fix_now()`, `ms` the millisecond clock value
read for the ClOrdID (`int(time.time()*1000)`), and `seq` the value of
the global `_seq` on entry — the spec directs that clock and identifier
sources be treated as explicit inputs. -/
structure BuildIn where
  sender : PyStr
  target : PyStr
  symbol : PyStr
  side : Int
  qty : Rat
  price : Rat
  t : DT
  ms : Nat
  seq : Nat

/-- The `body` local of `build_new_order_single`: the thirteen body
fields, MsgType through Price, in source order. -/
def nos_body (a : BuildIn) : PyStr :=
  let now := fix_now a.t
  let oid := ("ORD-").data ++ pyStrNat a.ms
  fld TAG_MSG_TYPE ("D").data
    ++ fld TAG_SENDER_COMP a.sender
    ++ fld TAG_TARGET_COMP a.target
    ++ fld TAG_MSG_SEQ_NUM (pyStrNat (next_seq a.seq).1)
    ++ fld TAG_SENDING_TIME now
    ++ fld TAG_CL_ORD_ID oid
    ++ fld TAG_HANDL_INST (pyStrNat 1)
    ++ fld TAG_SYMBOL a.symbol
    ++ fld TAG_SIDE (pyStrInt a.side)
    ++ fld TAG_TRANSACT_TIME now
    ++ fld TAG_ORDER_QTY (pyStrInt (pyInt a.qty))
    ++ fld TAG_ORD_TYPE (pyStrNat 2)
    ++ fld TAG_PRICE (format4 a.price)

/-- The `begin` local: `fld(TAG_BEGIN_STRING, "FIX.4.2")`. -/
def nos_begin : PyStr := fld TAG_BEGIN_STRING ("FIX.4.2").data

/-- The `blen` local: `fld(TAG_BODY_LENGTH, len(begin) + len(body))`. -/
def nos_blen (a : BuildIn) : PyStr :=
  fld TAG_BODY_LENGTH (pyStrNat (nos_begin.length + (nos_body a).length))

/-- The `raw` local before the checksum is appended:
`begin + blen + body`. -/
def nos_raw (a : BuildIn) : PyStr := nos_begin ++ nos_blen a ++ nos_body a

/-- Everything of `build_new_order_single` up to (but not including)
the final ASCII encoding step: the full message text
`raw + fld(TAG_CHECKSUM, checksum(raw))`. -/
def build_raw (a : BuildIn) : PyStr :=
  nos_raw a ++ fld TAG_CHECKSUM (checksum (nos_raw a))

/-- Python `encode` with the ascii codec: `some` of the byte values
when every character is ASCII, `none` (the `UnicodeEncodeError`
raising path) otherwise. -/
def encodeAscii (s : PyStr) : Option (List Nat) :=
  if s.all (fun c => c.toNat < 128) then some (s.map Char.toNat) else none

/-- Source: `build_new_order_single(sender, target, symbol, side, qty,
price)`; `none` models the raising path of `.encode("ascii")`. -/
def build_new_order_single (a : BuildIn) : Option (List Nat) :=
  encodeAscii (build_raw a)

/-- The message as a tag/value list, used to state structural facts:
`build_raw` is proved equal to `joinFields` of this list. -/
def nos_fields (a : BuildIn) : List (Int × PyStr) :=
  [(TAG_BEGIN_STRING, ("FIX.4.2").data),
   (TAG_BODY_LENGTH, pyStrNat (nos_begin.length + (nos_body a).length)),
   (TAG_MSG_TYPE, ("D").data),
   (TAG_SENDER_COMP, a.sender),
   (TAG_TARGET_COMP, a.target),
   (TAG_MSG_SEQ_NUM, pyStrNat (next_seq a.seq).1),
   (TAG_SENDING_TIME, fix_now a.t),
   (TAG_CL_ORD_ID, ("ORD-").data ++ pyStrNat a.ms),
   (TAG_HANDL_INST, pyStrNat 1),
   (TAG_SYMBOL, a.symbol),
   (TAG_SIDE, pyStrInt a.side),
   (TAG_TRANSACT_TIME, fix_now a.t),
   (TAG_ORDER_QTY, pyStrInt (pyInt a.qty)),
   (TAG_ORD_TYPE, pyStrNat 2),
   (TAG_PRICE, format4 a.price),
   (TAG_CHECKSUM, checksum (nos_raw a))]

/-- Concatenation of rendered fields. -/
def joinFields (l : List (Int × PyStr)) : PyStr :=
  l.foldr (fun p acc => fld p.1 p.2 ++ acc) []

/-- Split a string on the delimiter byte (Python
`raw.split(SOH)`-style): the list of delimiter-free chunks. -/
def splitSOH : PyStr → List PyStr
  | [] => [[]]
  | c :: rest =>
    if c = SOHc then [] :: splitSOH rest
    else
      match splitSOH rest with
      | [] => [[c]]
      | g :: gs => (c :: g) :: gs

/-- Split a chunk at the first occurrence of `x`:
`some (before, after)`, or `none` when `x` does not occur. -/
def breakOn (x : Char) : PyStr → Option (PyStr × PyStr)
  | [] => none
  | c :: rest =>
    if c = x then some ([], rest)
    else (breakOn x rest).map (fun p => (c :: p.1, p.2))

/-- Parse a message into `tag-text × value-text` pairs: split on the
delimiter byte, then split each chunk at its first `=`. -/
def parseFieldsOf (msg : PyStr) : List (PyStr × PyStr) :=
  (splitSOH msg).filterMap (breakOn '=')

/-- The value text of the first field of `msg` carrying `tag`. -/
def tagValue (msg : PyStr) (tag : Int) : Option PyStr :=
  ((parseFieldsOf msg).find? (fun p => decide (p.1 = pyStrInt tag))).map (fun p => p.2)

/-- The tag texts of all fields of `msg`, in wire order. -/
def msgTags (msg : PyStr) : List PyStr :=
  (parseFieldsOf msg).map (fun p => p.1)

/-- The numeric value of a digit character, `none` for non-digits. -/
def digitVal (c : Char) : Option Nat :=
  if 48 ≤ c.toNat ∧ c.toNat ≤ 57 then some (c.toNat - 48) else none

def parseNatGo : PyStr → Nat → Option Nat
  | [], acc => some acc
  | c :: rest, acc =>
    match digitVal c with
    | some d => parseNatGo rest (acc * 10 + d)
    | none => none

/-- Parse a non-empty all-digit string as a natural number. -/
def parseNat (s : PyStr) : Option Nat :=
  if s = [] then none else parseNatGo s 0

/-- Parse an optionally `-`-signed decimal integer. -/
def parseInt (s : PyStr) : Option Int :=
  match s with
  | [] => none
  | c :: rest =>
    if c = '-' then (parseNat rest).map (fun n => -(Int.ofNat n))
    else (parseNat (c :: rest)).map (fun n => Int.ofNat n)

/-- Parse an unsigned decimal, with an optional fractional part
introduced by `.`. -/
def parsePrice (s : PyStr) : Option Rat :=
  match breakOn '.' s with
  | some p =>
    match parseNat p.1, parseNat p.2 with
    | some a, some b => some ((a : Rat) + (b : Rat) / (10 : Rat) ^ p.2.length)
    | _, _ => none
  | none => (parseNat s).map (fun n => (n : Rat))

/-- A decimal digit character (code point between 48 and 57). -/
def isDigitCh (c : Char) : Prop := 48 ≤ c.toNat ∧ c.toNat ≤ 57

/-- No character of `s` is the delimiter byte. -/
def sohFree (s : PyStr) : Prop := SOHc ∉ s

/-- Every character of `s` is ASCII. -/
def asciiStr (s : PyStr) : Prop := ∀ c ∈ s, c.toNat < 128

/-- The free-form inputs of the builder carry no delimiter byte — the
spec makes callers responsible for this. -/
def okInputs (a : BuildIn) : Prop :=
  sohFree a.sender ∧ sohFree a.target ∧ sohFree a.symbol

instance (c : Char) : Decidable (isDigitCh c) :=
  inferInstanceAs (Decidable (48 ≤ c.toNat ∧ c.toNat ≤ 57))

instance (s : PyStr) : Decidable (sohFree s) :=
  inferInstanceAs (Decidable (SOHc ∉ s))

instance (s : PyStr) : Decidable (asciiStr s) :=
  List.decidableBAll (fun c : Char => c.toNat < 128) s

instance (a : BuildIn) : Decidable (okInputs a) :=
  inferInstanceAs (Decidable (sohFree a.sender ∧ sohFree a.target ∧ sohFree a.symbol))

/-- A concrete clock instant used by the closed-form theorems below. -/
def dt0 : DT := ⟨2024, 1, 2, 3, 4, 5⟩

/-- Concrete builder input for the BodyLength theorems. -/
def inC1 : BuildIn :=
  ⟨("CLIENT1").data, ("SERVER1").data, ("AAPL").data, 1, 100, 150, dt0, 17000, 0⟩

/-- Concrete builder input with an empty symbol. -/
def inC2e : BuildIn :=
  ⟨("CLIENT1").data, ("SERVER1").data, [], 1, 100, 150, dt0, 17000, 0⟩

/-- Concrete builder input violating every documented validity rule:
empty symbol, negative quantity, negative price. -/
def inC2w : BuildIn :=
  ⟨("CLIENT1").data, ("SERVER1").data, [], 1, -5, -2, dt0, 17000, 0⟩

/-- Concrete builder input for the checksum theorem. -/
def inC3 : BuildIn :=
  ⟨("CLIENT1").data, ("SERVER1").data, ("MSFT").data, 2, 50, 310, dt0, 17001, 3⟩

/-- Concrete builder input for the field-order theorem. -/
def inC4 : BuildIn :=
  ⟨("CLIENT1").data, ("SERVER1").data, ("IBM").data, 1, 25, 99, dt0, 17002, 1⟩

/-- Concrete builder input with integral quantity and a price that is
an exact multiple of one ten-thousandth. -/
def inC6w : BuildIn :=
  ⟨("CLIENT1").data, ("SERVER1").data, ("AAPL").data, 2, 100,
   (1501234 : Rat) / 10000, dt0, 17003, 4⟩

/-- Concrete builder input with the fractional quantity one hundred and
a half. -/
def inC6x : BuildIn :=
  ⟨("CLIENT1").data, ("SERVER1").data, ("AAPL").data, 1,
   (201 : Rat) / 2, 150, dt0, 17004, 5⟩

/-- Concrete builder input with the fractional quantity one hundred
point seven. -/
def inC9 : BuildIn :=
  ⟨("CLIENT1").data, ("SERVER1").data, ("AAPL").data, 1,
   (1007 : Rat) / 10, 150, dt0, 17005, 6⟩

/-- Concrete builder input whose symbol contains a non-ASCII character. -/
def inC10 : BuildIn :=
  ⟨("CLIENT1").data, ("SERVER1").data, ['Ä'], 1, 100, 150, dt0, 17006, 7⟩

/-- Result of one `recv` attempt inside `FIXTerminal._worker`, after a
successful connect and send. -/
inductive RecvResult where
  | data (resp : List Nat)
  | timeout
  deriving DecidableEq

/-- Outcome of the network exchange attempted by `FIXTerminal._worker`
(the socket itself is the abstracted environment). -/
inductive NetResult where
  | ok (r : RecvResult)
  | refused
  | oserror (detail : String)

/-- One log line: label, colour tag, text. -/
structure LogLine where
  label : String
  tag : String
  text : String

/-- What `_worker` logs for each network outcome, and whether the
connection has been closed when the handler finishes.  The `true`
closed-flag on the `ok` cases records the `with socket.create_connection(...)`
scoped acquisition: the socket is closed on every exit from the block. -/
def worker_report (host port : String) (r : NetResult) : LogLine × Bool :=
  match r with
  | .ok (.data resp) =>
    if resp ≠ [] then (⟨"◀ RECV", "recv", "response bytes"⟩, true)
    else (⟨"INFO", "info", "Connection closed by server."⟩, true)
  | .ok .timeout =>
    (⟨"INFO", "info", "No response (timeout) — message delivered."⟩, true)
  | .refused =>
    (⟨"ERROR", "err", "Connection refused at " ++ host ++ ":" ++ port⟩, true)
  | .oserror detail => (⟨"ERROR", "err", detail⟩, true)

/-! ## Decimal rendering and parsing -/

theorem digitChar_toNat {d : Nat} (h : d < 10) : (digitChar d).toNat = 48 + d := by
  interval_cases d <;> decide

theorem isDigitCh_digitChar {d : Nat} (h : d < 10) : isDigitCh (digitChar d) := by
  interval_cases d <;> exact ⟨by decide, by decide⟩

theorem digitVal_digitChar {d : Nat} (h : d < 10) : digitVal (digitChar d) = some d := by
  interval_cases d <;> decide

theorem toDigitsGo_eq (n : Nat) :
    ∀ fuel, n < fuel → ∀ acc, toDigitsGo fuel n acc = pyStrNat n ++ acc := by
  induction n using Nat.strong_induction_on with
  | _ n ih =>
    intro fuel hf acc
    match fuel, hf with
    | fuel + 1, hf =>
      by_cases h10 : n < 10
      · simp [toDigitsGo, pyStrNat, h10, Nat.mod_eq_of_lt h10]
      · have hd : n / 10 < n := Nat.div_lt_self (by omega) (by omega)
        have hstep : toDigitsGo (fuel + 1) n acc
            = toDigitsGo fuel (n / 10) (digitChar (n % 10) :: acc) := by
          simp [toDigitsGo, h10]
        have hself : pyStrNat n = pyStrNat (n / 10) ++ [digitChar (n % 10)] := by
          have : pyStrNat n = toDigitsGo n (n / 10) [digitChar (n % 10)] := by
            simp [pyStrNat, toDigitsGo, h10]
          rw [this, ih (n / 10) hd n (by omega) [digitChar (n % 10)]]
        rw [hstep, ih (n / 10) hd fuel (by omega) (digitChar (n % 10) :: acc), hself]
        simp

theorem pyStrNat_lt {n : Nat} (h : n < 10) : pyStrNat n = [digitChar n] := by
  simp [pyStrNat, toDigitsGo, h, Nat.mod_eq_of_lt h]

theorem pyStrNat_ge {n : Nat} (h : 10 ≤ n) :
    pyStrNat n = pyStrNat (n / 10) ++ [digitChar (n % 10)] := by
  have h10 : ¬ n < 10 := by omega
  have : pyStrNat n = toDigitsGo n (n / 10) [digitChar (n % 10)] := by
    simp [pyStrNat, toDigitsGo, h10]
  rw [this, toDigitsGo_eq (n / 10) n (by omega) [digitChar (n % 10)]]

theorem pyStrNat_ne_nil (n : Nat) : pyStrNat n ≠ [] := by
  by_cases h : n < 10
  · simp [pyStrNat_lt h]
  · simp [pyStrNat_ge (by omega : 10 ≤ n)]

theorem mem_pyStrNat {n : Nat} {c : Char} (hc : c ∈ pyStrNat n) : isDigitCh c := by
  induction n using Nat.strong_induction_on with
  | _ n ih =>
    by_cases h : n < 10
    · rw [pyStrNat_lt h] at hc
      simp at hc
      exact hc ▸ isDigitCh_digitChar h
    · rw [pyStrNat_ge (by omega : 10 ≤ n)] at hc
      rcases List.mem_append.mp hc with h1 | h2
      · exact ih (n / 10) (Nat.div_lt_self (by omega) (by omega)) h1
      · simp at h2
        exact h2 ▸ isDigitCh_digitChar (Nat.mod_lt n (by omega))

theorem parseNatGo_append (xs ys : PyStr) (acc : Nat) :
    parseNatGo (xs ++ ys) acc = (parseNatGo xs acc).bind (fun a => parseNatGo ys a) := by
  induction xs generalizing acc with
  | nil => simp [parseNatGo]
  | cons c xs ih =>
    simp only [List.cons_append, parseNatGo]
    cases digitVal c with
    | some d => simp [ih]
    | none => simp

theorem parseNatGo_pyStrNat (n : Nat) :
    ∀ acc, parseNatGo (pyStrNat n) acc = some (acc * 10 ^ (pyStrNat n).length + n) := by
  induction n using Nat.strong_induction_on with
  | _ n ih =>
    intro acc
    by_cases h : n < 10
    · rw [pyStrNat_lt h]
      simp [parseNatGo, digitVal_digitChar h]
    · have h10 : 10 ≤ n := by omega
      rw [pyStrNat_ge h10, parseNatGo_append,
        ih (n / 10) (Nat.div_lt_self (by omega) (by omega)) acc]
      simp only [Option.some_bind, parseNatGo, digitVal_digitChar (Nat.mod_lt n (by omega)),
        Option.some_inj, List.length_append, List.length_singleton, pow_succ]
      have hmod : n / 10 * 10 + n % 10 = n := by omega
      calc (acc * 10 ^ (pyStrNat (n / 10)).length + n / 10) * 10 + n % 10
          = acc * (10 ^ (pyStrNat (n / 10)).length * 10) + (n / 10 * 10 + n % 10) := by ring
        _ = acc * (10 ^ (pyStrNat (n / 10)).length * 10) + n := by rw [hmod]

theorem parseNat_pyStrNat (n : Nat) : parseNat (pyStrNat n) = some n := by
  rw [parseNat, if_neg (pyStrNat_ne_nil n), parseNatGo_pyStrNat]
  simp

theorem pyStrNat_injective : Function.Injective pyStrNat := by
  intro m n h
  have hm := parseNat_pyStrNat m
  rw [h, parseNat_pyStrNat] at hm
  exact (Option.some_inj.mp hm).symm

theorem mem_pyStrInt {i : Int} {c : Char} (hc : c ∈ pyStrInt i) :
    c = '-' ∨ isDigitCh c := by
  rw [pyStrInt] at hc
  split at hc
  · rcases List.mem_cons.mp hc with h | h
    · exact Or.inl h
    · exact Or.inr (mem_pyStrNat h)
  · exact Or.inr (mem_pyStrNat hc)

theorem parseInt_pyStrInt (i : Int) : parseInt (pyStrInt i) = some i := by
  by_cases hi : i < 0
  · rw [pyStrInt, if_pos hi]
    have h1 : parseInt ('-' :: pyStrNat i.natAbs)
        = (parseNat (pyStrNat i.natAbs)).map (fun n => -(Int.ofNat n)) := rfl
    rw [h1, parseNat_pyStrNat]
    have h2 : -(Int.ofNat i.natAbs) = i := by
      rw [Int.ofNat_eq_natCast]
      omega
    have h3 : Option.map (fun n => -(Int.ofNat n)) (some i.natAbs)
        = some (-(Int.ofNat i.natAbs)) := rfl
    rw [h3, h2]
  · rw [pyStrInt, if_neg hi]
    obtain ⟨c, cs, hcc⟩ := List.exists_cons_of_ne_nil (pyStrNat_ne_nil i.toNat)
    have hdig : isDigitCh c := mem_pyStrNat (n := i.toNat) (hcc ▸ List.mem_cons_self c cs)
    have hcne : ¬ c = '-' := by
      intro h
      rw [h] at hdig
      exact absurd hdig.1 (by decide)
    rw [hcc]
    simp only [parseInt, if_neg hcne]
    rw [← hcc, parseNat_pyStrNat]
    have h2 : Int.ofNat i.toNat = i := by
      rw [Int.ofNat_eq_natCast]
      omega
    have h3 : Option.map (fun n => Int.ofNat n) (some i.toNat)
        = some (Int.ofNat i.toNat) := rfl
    rw [h3, h2]

/-! ## Character classes of rendered fields -/

theorem ne_soh_of_digit {c : Char} (h : isDigitCh c) : c ≠ SOHc := by
  intro e
  rw [e] at h
  exact absurd h.1 (by decide)

theorem ascii_of_digit {c : Char} (h : isDigitCh c) : c.toNat < 128 := by
  have := h.2
  omega

theorem sohFree_nil : sohFree [] := by
  simp [sohFree]

theorem sohFree_append {s t : PyStr} (hs : sohFree s) (ht : sohFree t) :
    sohFree (s ++ t) := by
  simp only [sohFree, List.mem_append] at *
  tauto

theorem sohFree_of_digits {s : PyStr} (h : ∀ c ∈ s, isDigitCh c) : sohFree s := by
  intro hmem
  exact ne_soh_of_digit (h SOHc hmem) rfl

theorem asciiStr_append {s t : PyStr} (hs : asciiStr s) (ht : asciiStr t) :
    asciiStr (s ++ t) := by
  intro c hc
  rcases List.mem_append.mp hc with h | h
  · exact hs c h
  · exact ht c h

theorem asciiStr_of_digits {s : PyStr} (h : ∀ c ∈ s, isDigitCh c) : asciiStr s :=
  fun c hc => ascii_of_digit (h c hc)

theorem digits_pyStrNat (n : Nat) : ∀ c ∈ pyStrNat n, isDigitCh c :=
  fun _ hc => mem_pyStrNat hc

theorem sohFree_pyStrNat (n : Nat) : sohFree (pyStrNat n) :=
  sohFree_of_digits (digits_pyStrNat n)

theorem sohFree_pyStrInt (i : Int) : sohFree (pyStrInt i) := by
  intro hmem
  rcases mem_pyStrInt hmem with h | h
  · exact absurd h (by decide)
  · exact ne_soh_of_digit h rfl

theorem asciiStr_pyStrNat (n : Nat) : asciiStr (pyStrNat n) :=
  asciiStr_of_digits (digits_pyStrNat n)

theorem asciiStr_pyStrInt (i : Int) : asciiStr (pyStrInt i) := by
  intro c hc
  rcases mem_pyStrInt hc with h | h
  · rw [h]
    decide
  · exact ascii_of_digit h

theorem mem_zfill {w : Nat} {s : PyStr} {c : Char} (hc : c ∈ zfill w s) :
    c = '0' ∨ c ∈ s := by
  rcases List.mem_append.mp hc with h | h
  · exact Or.inl (List.eq_of_mem_replicate h)
  · exact Or.inr h

theorem digits_zfill {w : Nat} {s : PyStr} (h : ∀ c ∈ s, isDigitCh c) :
    ∀ c ∈ zfill w s, isDigitCh c := by
  intro c hc
  rcases mem_zfill hc with h0 | hs
  · rw [h0]
    exact ⟨by decide, by decide⟩
  · exact h c hs

theorem digits_checksum (raw : PyStr) : ∀ c ∈ checksum raw, isDigitCh c :=
  digits_zfill (digits_pyStrNat _)

theorem sohFree_checksum (raw : PyStr) : sohFree (checksum raw) :=
  sohFree_of_digits (digits_checksum raw)

theorem asciiStr_checksum (raw : PyStr) : asciiStr (checksum raw) :=
  asciiStr_of_digits (digits_checksum raw)

theorem digits_pad2 (n : Nat) : ∀ c ∈ pad2 n, isDigitCh c :=
  digits_zfill (digits_pyStrNat n)

theorem digits_pad4 (n : Nat) : ∀ c ∈ pad4 n, isDigitCh c :=
  digits_zfill (digits_pyStrNat n)

theorem pred_append {P : Char → Prop} {s t : PyStr}
    (hs : ∀ c ∈ s, P c) (ht : ∀ c ∈ t, P c) : ∀ c ∈ s ++ t, P c := by
  intro c hc
  rcases List.mem_append.mp hc with h | h
  · exact hs c h
  · exact ht c h

theorem mem_fix_now {t : DT} : ∀ c ∈ fix_now t, isDigitCh c ∨ c = '-' ∨ c = ':' := by
  have hd : ∀ (n : Nat), ∀ c ∈ pad2 n, isDigitCh c ∨ c = '-' ∨ c = ':' :=
    fun n c h => Or.inl (digits_pad2 n c h)
  have h4 : ∀ c ∈ pad4 t.year, isDigitCh c ∨ c = '-' ∨ c = ':' :=
    fun c h => Or.inl (digits_pad4 _ c h)
  have hdash : ∀ c ∈ (['-'] : PyStr), isDigitCh c ∨ c = '-' ∨ c = ':' :=
    fun c h => Or.inr (Or.inl (List.mem_singleton.mp h))
  have hcolon : ∀ c ∈ ([':'] : PyStr), isDigitCh c ∨ c = '-' ∨ c = ':' :=
    fun c h => Or.inr (Or.inr (List.mem_singleton.mp h))
  rw [fix_now]
  exact pred_append (pred_append (pred_append (pred_append (pred_append (pred_append
    (pred_append (pred_append h4 (hd _)) (hd _)) hdash) (hd _)) hcolon) (hd _))
    hcolon) (hd _)

theorem sohFree_fix_now (t : DT) : sohFree (fix_now t) := by
  intro hmem
  rcases mem_fix_now SOHc hmem with h | h | h
  · exact ne_soh_of_digit h rfl
  · exact absurd h (by decide)
  · exact absurd h (by decide)

theorem asciiStr_fix_now (t : DT) : asciiStr (fix_now t) := by
  intro c hc
  rcases mem_fix_now c hc with h | h | h
  · exact ascii_of_digit h
  · rw [h]
    decide
  · rw [h]
    decide

theorem digits_frac4 (m : Nat) : ∀ c ∈ frac4 m, isDigitCh c := by
  intro c hc
  rw [frac4] at hc
  simp only [List.mem_cons, List.not_mem_nil, or_false] at hc
  rcases hc with h | h | h | h <;>
    exact h ▸ isDigitCh_digitChar (Nat.mod_lt _ (by omega))

theorem mem_format4 {q : Rat} {c : Char} (hc : c ∈ format4 q) :
    isDigitCh c ∨ c = '-' ∨ c = '.' := by
  rw [format4] at hc
  have habs : ∀ x : Rat, c ∈ format4abs x → isDigitCh c ∨ c = '-' ∨ c = '.' := by
    intro x hx
    rw [format4abs] at hx
    simp only [List.append_assoc, List.mem_append, List.mem_singleton] at hx
    rcases hx with h | h | h
    · exact Or.inl (digits_pyStrNat _ c h)
    · exact Or.inr (Or.inr h)
    · exact Or.inl (digits_frac4 _ c h)
  split at hc
  · rcases List.mem_cons.mp hc with h | h
    · exact Or.inr (Or.inl h)
    · exact habs _ h
  · exact habs _ hc

theorem sohFree_format4 (q : Rat) : sohFree (format4 q) := by
  intro hmem
  rcases mem_format4 hmem with h | h | h
  · exact ne_soh_of_digit h rfl
  · exact absurd h (by decide)
  · exact absurd h (by decide)

theorem asciiStr_format4 (q : Rat) : asciiStr (format4 q) := by
  intro c hc
  rcases mem_format4 hc with h | h | h
  · exact ascii_of_digit h
  · rw [h]
    decide
  · rw [h]
    decide

/-! ## Splitting a message back into fields -/

theorem splitSOH_append {xs : PyStr} (ys : PyStr) (h : SOHc ∉ xs) :
    splitSOH (xs ++ SOHc :: ys) = xs :: splitSOH ys := by
  induction xs with
  | nil => simp [splitSOH]
  | cons c xs ih =>
    have hc : ¬ c = SOHc := fun e => h (e ▸ List.mem_cons_self c xs)
    have hxs : SOHc ∉ xs := fun e => h (List.mem_cons_of_mem c e)
    have key : splitSOH (xs.append (SOHc :: ys)) = xs :: splitSOH ys := ih hxs
    simp only [List.cons_append, splitSOH, if_neg hc]
    rw [key]

theorem breakOn_append {x : Char} {xs : PyStr} (ys : PyStr) (h : x ∉ xs) :
    breakOn x (xs ++ x :: ys) = some (xs, ys) := by
  induction xs with
  | nil => simp [breakOn]
  | cons c xs ih =>
    have hc : ¬ c = x := fun e => h (e ▸ List.mem_cons_self c xs)
    have hxs : x ∉ xs := fun e => h (List.mem_cons_of_mem c e)
    have key : breakOn x (xs.append (x :: ys)) = some (xs, ys) := ih hxs
    simp only [List.cons_append, breakOn, if_neg hc]
    rw [key]
    rfl

theorem eq_ne_of_digit_or_dash {c : Char} (h : c = '-' ∨ isDigitCh c) : ¬ c = '=' := by
  rcases h with h | h
  · rw [h]
    decide
  · intro e
    rw [e] at h
    exact absurd h.2 (by decide)

theorem parseFields_joinFields (l : List (Int × PyStr))
    (h : ∀ p ∈ l, sohFree p.2) :
    parseFieldsOf (joinFields l) = l.map (fun p => (pyStrInt p.1, p.2)) := by
  induction l with
  | nil => rfl
  | cons p rest ih =>
    have hgroup : SOHc ∉ pyStrInt p.1 ++ '=' :: p.2 := by
      intro hmem
      rcases List.mem_append.mp hmem with h1 | h1
      · exact sohFree_pyStrInt p.1 h1
      · rcases List.mem_cons.mp h1 with h2 | h2
        · exact absurd h2.symm (by decide)
        · exact h p (List.mem_cons_self p rest) h2
    have hjoin : joinFields (p :: rest)
        = (pyStrInt p.1 ++ '=' :: p.2) ++ SOHc :: joinFields rest := by
      simp [joinFields, fld, SOH]
    have hbreak : breakOn '=' (pyStrInt p.1 ++ '=' :: p.2) = some (pyStrInt p.1, p.2) :=
      breakOn_append p.2 (fun hmem =>
        eq_ne_of_digit_or_dash (mem_pyStrInt hmem) rfl)
    rw [hjoin, parseFieldsOf, splitSOH_append _ hgroup, List.filterMap_cons, hbreak,
      ← parseFieldsOf, ih (fun q hq => h q (List.mem_cons_of_mem p hq))]
    rfl

theorem sohFree_values (a : BuildIn) (h : okInputs a) :
    ∀ p ∈ nos_fields a, sohFree p.2 := by
  simp only [nos_fields, List.forall_mem_cons]
  exact ⟨by decide, sohFree_pyStrNat _, by decide, h.1, h.2.1, sohFree_pyStrNat _,
    sohFree_fix_now _, sohFree_append (by decide) (sohFree_pyStrNat _),
    sohFree_pyStrNat _, h.2.2, sohFree_pyStrInt _, sohFree_fix_now _,
    sohFree_pyStrInt _, sohFree_pyStrNat _, sohFree_format4 _,
    sohFree_checksum _, List.forall_mem_nil _⟩

theorem build_raw_eq_joinFields (a : BuildIn) :
    build_raw a = joinFields (nos_fields a) := by
  simp [build_raw, nos_raw, nos_begin, nos_blen, nos_body, nos_fields, joinFields,
    List.append_assoc]

theorem parseFields_build (a : BuildIn) (h : okInputs a) :
    parseFieldsOf (build_raw a)
      = (nos_fields a).map (fun p => (pyStrInt p.1, p.2)) := by
  rw [build_raw_eq_joinFields, parseFields_joinFields _ (sohFree_values a h)]

theorem tagValue_build (a : BuildIn) (h : okInputs a) (tg : Int) :
    tagValue (build_raw a) tg
      = ((nos_fields a).find?
          (fun p => decide (pyStrInt p.1 = pyStrInt tg))).map (fun p => p.2) := by
  rw [tagValue, parseFields_build a h, List.find?_map, Option.map_map]
  rfl

/-! ## Values of the individual fields of a built message -/

theorem find_tag_cons_ne {tg t : Int} (v : PyStr) (rest : List (Int × PyStr))
    (h : ¬ pyStrInt t = pyStrInt tg) :
    ((t, v) :: rest).find? (fun p => decide (pyStrInt p.1 = pyStrInt tg))
      = rest.find? (fun p => decide (pyStrInt p.1 = pyStrInt tg)) :=
  List.find?_cons_of_neg _ (by simpa using h)

theorem find_tag_cons_eq {tg t : Int} (v : PyStr) (rest : List (Int × PyStr))
    (h : pyStrInt t = pyStrInt tg) :
    ((t, v) :: rest).find? (fun p => decide (pyStrInt p.1 = pyStrInt tg))
      = some (t, v) :=
  List.find?_cons_of_pos _ (by simpa using h)

theorem tagValue_bodyLength (a : BuildIn) (h : okInputs a) :
    tagValue (build_raw a) TAG_BODY_LENGTH
      = some (pyStrNat (nos_begin.length + (nos_body a).length)) := by
  rw [tagValue_build a h, nos_fields]
  repeat rw [find_tag_cons_ne _ _ (by decide)]
  rw [find_tag_cons_eq _ _ (by decide)]
  simp only [Option.map]

theorem tagValue_checksum (a : BuildIn) (h : okInputs a) :
    tagValue (build_raw a) TAG_CHECKSUM = some (checksum (nos_raw a)) := by
  rw [tagValue_build a h, nos_fields]
  repeat rw [find_tag_cons_ne _ _ (by decide)]
  rw [find_tag_cons_eq _ _ (by decide)]
  simp only [Option.map]

theorem tagValue_msgType (a : BuildIn) (h : okInputs a) :
    tagValue (build_raw a) TAG_MSG_TYPE = some (("D").data) := by
  rw [tagValue_build a h, nos_fields]
  repeat rw [find_tag_cons_ne _ _ (by decide)]
  rw [find_tag_cons_eq _ _ (by decide)]
  simp only [Option.map]

theorem tagValue_handlInst (a : BuildIn) (h : okInputs a) :
    tagValue (build_raw a) TAG_HANDL_INST = some (pyStrNat 1) := by
  rw [tagValue_build a h, nos_fields]
  repeat rw [find_tag_cons_ne _ _ (by decide)]
  rw [find_tag_cons_eq _ _ (by decide)]
  simp only [Option.map]

theorem tagValue_ordType (a : BuildIn) (h : okInputs a) :
    tagValue (build_raw a) TAG_ORD_TYPE = some (pyStrNat 2) := by
  rw [tagValue_build a h, nos_fields]
  repeat rw [find_tag_cons_ne _ _ (by decide)]
  rw [find_tag_cons_eq _ _ (by decide)]
  simp only [Option.map]

theorem tagValue_symbol (a : BuildIn) (h : okInputs a) :
    tagValue (build_raw a) TAG_SYMBOL = some a.symbol := by
  rw [tagValue_build a h, nos_fields]
  repeat rw [find_tag_cons_ne _ _ (by decide)]
  rw [find_tag_cons_eq _ _ (by decide)]
  simp only [Option.map]

theorem tagValue_side (a : BuildIn) (h : okInputs a) :
    tagValue (build_raw a) TAG_SIDE = some (pyStrInt a.side) := by
  rw [tagValue_build a h, nos_fields]
  repeat rw [find_tag_cons_ne _ _ (by decide)]
  rw [find_tag_cons_eq _ _ (by decide)]
  simp only [Option.map]

theorem tagValue_orderQty (a : BuildIn) (h : okInputs a) :
    tagValue (build_raw a) TAG_ORDER_QTY = some (pyStrInt (pyInt a.qty)) := by
  rw [tagValue_build a h, nos_fields]
  repeat rw [find_tag_cons_ne _ _ (by decide)]
  rw [find_tag_cons_eq _ _ (by decide)]
  simp only [Option.map]

theorem tagValue_price (a : BuildIn) (h : okInputs a) :
    tagValue (build_raw a) TAG_PRICE = some (format4 a.price) := by
  rw [tagValue_build a h, nos_fields]
  repeat rw [find_tag_cons_ne _ _ (by decide)]
  rw [find_tag_cons_eq _ _ (by decide)]
  simp only [Option.map]

theorem msgTags_build (a : BuildIn) (h : okInputs a) :
    msgTags (build_raw a) = (nos_fields a).map (fun p => pyStrInt p.1) := by
  rw [msgTags, parseFields_build a h, List.map_map]
  rfl

/-! ## The sequence counter -/

theorem seqState_eq (k : Nat) : seqState k = k := by
  induction k with
  | zero => rfl
  | succ k ih => simp [seqState, next_seq, ih]

theorem seqVal_eq (k : Nat) : seqVal k = k + 1 := by
  simp [seqVal, next_seq, seqState_eq]

/-! ## ASCII-ness of built messages -/

theorem asciiStr_fld {tag : Int} {val : PyStr} (h : asciiStr val) :
    asciiStr (fld tag val) := by
  rw [fld]
  exact asciiStr_append (asciiStr_append (asciiStr_append
    (asciiStr_pyStrInt tag) (by decide)) h) (by decide)

theorem asciiStr_joinFields (l : List (Int × PyStr)) (h : ∀ p ∈ l, asciiStr p.2) :
    asciiStr (joinFields l) := by
  induction l with
  | nil => exact fun c hc => absurd hc (List.not_mem_nil c)
  | cons p rest ih =>
    exact asciiStr_append (asciiStr_fld (h p (List.mem_cons_self p rest)))
      (ih (fun q hq => h q (List.mem_cons_of_mem p hq)))

theorem asciiStr_values (a : BuildIn) (hs : asciiStr a.sender)
    (ht : asciiStr a.target) (hsym : asciiStr a.symbol) :
    ∀ p ∈ nos_fields a, asciiStr p.2 := by
  simp only [nos_fields, List.forall_mem_cons]
  exact ⟨by decide, asciiStr_pyStrNat _, by decide, hs, ht, asciiStr_pyStrNat _,
    asciiStr_fix_now _, asciiStr_append (by decide) (asciiStr_pyStrNat _),
    asciiStr_pyStrNat _, hsym, asciiStr_pyStrInt _, asciiStr_fix_now _,
    asciiStr_pyStrInt _, asciiStr_pyStrNat _, asciiStr_format4 _,
    asciiStr_checksum _, List.forall_mem_nil _⟩

theorem asciiStr_build_raw (a : BuildIn) (hs : asciiStr a.sender)
    (ht : asciiStr a.target) (hsym : asciiStr a.symbol) :
    asciiStr (build_raw a) := by
  rw [build_raw_eq_joinFields]
  exact asciiStr_joinFields _ (asciiStr_values a hs ht hsym)

/-! ## Fixed-point price rendering and parsing -/

theorem format4_of_nonneg {q : Rat} (h : ¬ q < 0) :
    format4 q = pyStrNat ((rhe (q * 10000)).toNat / 10000) ++ '.' ::
      frac4 ((rhe (q * 10000)).toNat % 10000) := by
  rw [format4, if_neg h, format4abs]
  simp

theorem parseNat_frac4 {m : Nat} (h : m < 10000) : parseNat (frac4 m) = some m := by
  have h1 : m / 1000 % 10 < 10 := Nat.mod_lt _ (by omega)
  have h2 : m / 100 % 10 < 10 := Nat.mod_lt _ (by omega)
  have h3 : m / 10 % 10 < 10 := Nat.mod_lt _ (by omega)
  have h4 : m % 10 < 10 := Nat.mod_lt _ (by omega)
  rw [parseNat, if_neg (by simp [frac4])]
  simp only [frac4, parseNatGo, digitVal_digitChar h1, digitVal_digitChar h2,
    digitVal_digitChar h3, digitVal_digitChar h4, Option.some_inj]
  omega

theorem rhe_natCast (k : Nat) : rhe ((k : Nat) : Rat) = ((k : Nat) : Int) := by
  have hf : Rat.floor ((k : Nat) : Rat) = ((k : Nat) : Int) := by
    rw [show Rat.floor ((k : Nat) : Rat) = ⌊((k : Nat) : Rat)⌋ from rfl]
    exact Int.floor_natCast k
  simp only [rhe, hf]
  rw [if_pos (by push_cast; norm_num)]

theorem parsePrice_format4 (k : Nat) :
    parsePrice (format4 ((k : Rat) / 10000)) = some ((k : Rat) / 10000) := by
  have hq : ¬ ((k : Rat) / 10000 < 0) := by
    rw [not_lt]
    positivity
  have hmul : ((k : Rat) / 10000) * 10000 = ((k : Nat) : Rat) := by
    field_simp
  rw [format4_of_nonneg hq, hmul, rhe_natCast, Int.toNat_natCast]
  have hdot : ('.' : Char) ∉ pyStrNat (k / 10000) := by
    intro hmem
    have := mem_pyStrNat hmem
    exact absurd this.1 (by decide)
  have hbreak : breakOn '.' (pyStrNat (k / 10000) ++ '.' :: frac4 (k % 10000))
      = some (pyStrNat (k / 10000), frac4 (k % 10000)) :=
    breakOn_append _ hdot
  rw [parsePrice]
  rw [hbreak]
  simp only [parseNat_pyStrNat, parseNat_frac4 (Nat.mod_lt k (by omega)),
    Option.some_inj]
  have hlen : (frac4 (k % 10000)).length = 4 := rfl
  rw [hlen]
  have hpow : ((10 : Rat) : Rat) ^ (4 : Nat) = 10000 := by norm_num
  rw [hpow]
  field_simp
  norm_cast
  omega

theorem inputs_mem_build (a : BuildIn) (c : Char)
    (hmem : c ∈ a.sender ∨ c ∈ a.target ∨ c ∈ a.symbol) : c ∈ build_raw a := by
  rw [build_raw, nos_raw, nos_body]
  simp only [fld, List.append_assoc, List.mem_append, List.mem_cons]
  rcases hmem with h | h | h <;> tauto

/-! ## Claim theorems -/

/-- C1, counterexample: the claim that the BodyLength field (tag 9)
equals the byte length of the body region alone is false on the code —
at a concrete valid order the parsed BodyLength value differs from the
body-region length (the code adds the BeginString field's length). -/
theorem C1_counterexample :
    (tagValue (build_raw inC1) TAG_BODY_LENGTH).bind parseNat
      ≠ some ((nos_body inC1).length) := by
  with_unfolding_all decide

/-- C1 (amended): for every OrderRequest whose sender, target and
symbol are free of the delimiter byte, the value of the BodyLength
field (tag 9) of the built message equals the byte length of the
BeginString field plus the byte length of the body region (MsgType
through Price) — the BeginString field is included in the count,
contrary to the claim, while BodyLength itself and Checksum are
excluded. -/
theorem C1_bodyLength_amended (a : BuildIn) (h : okInputs a) :
    (tagValue (build_raw a) TAG_BODY_LENGTH).bind parseNat
      = some (nos_begin.length + (nos_body a).length) := by
  rw [tagValue_bodyLength a h, Option.some_bind]
  exact parseNat_pyStrNat _

/-- C1, witness for the amended theorem at a concrete order. -/
theorem C1_bodyLength_amended_witness :
    (tagValue (build_raw inC1) TAG_BODY_LENGTH).bind parseNat
      = some (nos_begin.length + (nos_body inC1).length) :=
  C1_bodyLength_amended inC1 (by decide)

set_option maxHeartbeats 8000000 in
/-- C2, counterexample: with an empty symbol the builder does not fail —
it returns a message byte sequence (the code performs no validation and
no ValidationError exists in it). -/
theorem C2_counterexample : (build_new_order_single inC2e).isSome = true := by
  with_unfolding_all decide

/-- C2 (amended): `build_new_order_single` performs no input validation
at all: even when the symbol is the empty string, the quantity is ≤ 0
and the price is ≤ 0 simultaneously, it still returns a message byte
sequence (provided sender and target are ASCII) instead of raising. -/
theorem C2_no_validation (a : BuildIn) (hsym : a.symbol = [])
    (_hq : a.qty ≤ 0) (_hp : a.price ≤ 0)
    (hs : asciiStr a.sender) (ht : asciiStr a.target) :
    (build_new_order_single a).isSome = true := by
  have hsymA : asciiStr a.symbol := by
    rw [hsym]
    exact fun c hc => absurd hc (List.not_mem_nil c)
  have hall : (build_raw a).all (fun c => c.toNat < 128) = true :=
    List.all_eq_true.mpr
      (fun c hc => decide_eq_true (asciiStr_build_raw a hs ht hsymA c hc))
  rw [build_new_order_single, encodeAscii, if_pos hall]
  rfl

/-- C2, witness for the amended theorem: empty symbol, negative
quantity and negative price still produce a message. -/
theorem C2_no_validation_witness : (build_new_order_single inC2w).isSome = true :=
  C2_no_validation inC2w rfl (by with_unfolding_all decide)
    (by with_unfolding_all decide) (by decide) (by decide)

/-- C3: for every OrderRequest whose free-form inputs are free of the
delimiter byte, the Checksum field (tag 10) of the built message equals
the sum of the byte values of every byte preceding the Checksum field
(that prefix being exactly `nos_raw`), taken modulo 256 and rendered
zero-padded to three decimal digits. -/
theorem C3_checksum (a : BuildIn) (h : okInputs a) :
    tagValue (build_raw a) TAG_CHECKSUM
      = some (zfill 3 (pyStrNat (ordSum (nos_raw a) % 256)))
    ∧ build_raw a
        = nos_raw a ++ fld TAG_CHECKSUM (zfill 3 (pyStrNat (ordSum (nos_raw a) % 256))) :=
  ⟨tagValue_checksum a h, rfl⟩

/-- C3, witness at a concrete order. -/
theorem C3_checksum_witness :
    tagValue (build_raw inC3) TAG_CHECKSUM
      = some (zfill 3 (pyStrNat (ordSum (nos_raw inC3) % 256)))
    ∧ build_raw inC3
        = nos_raw inC3 ++ fld TAG_CHECKSUM (zfill 3 (pyStrNat (ordSum (nos_raw inC3) % 256))) :=
  C3_checksum inC3 (by decide)

/-- C4: the fields of a built message appear in exactly the order
BeginString(8), BodyLength(9), MsgType(35)=D, SenderCompID(49),
TargetCompID(56), MsgSeqNum(34), SendingTime(52), ClOrdID(11),
HandlInst(21)=1, Symbol(55), Side(54), TransactTime(60), OrderQty(38),
OrdType(40)=2, Price(44), Checksum(10). -/
theorem C4_field_order (a : BuildIn) (h : okInputs a) :
    msgTags (build_raw a)
      = [TAG_BEGIN_STRING, TAG_BODY_LENGTH, TAG_MSG_TYPE, TAG_SENDER_COMP,
         TAG_TARGET_COMP, TAG_MSG_SEQ_NUM, TAG_SENDING_TIME, TAG_CL_ORD_ID,
         TAG_HANDL_INST, TAG_SYMBOL, TAG_SIDE, TAG_TRANSACT_TIME,
         TAG_ORDER_QTY, TAG_ORD_TYPE, TAG_PRICE, TAG_CHECKSUM].map pyStrInt
    ∧ tagValue (build_raw a) TAG_MSG_TYPE = some (("D").data)
    ∧ tagValue (build_raw a) TAG_HANDL_INST = some (pyStrNat 1)
    ∧ tagValue (build_raw a) TAG_ORD_TYPE = some (pyStrNat 2) := by
  refine ⟨?_, tagValue_msgType a h, tagValue_handlInst a h, tagValue_ordType a h⟩
  rw [msgTags_build a h]
  simp [nos_fields]

/-- C4, witness at a concrete order. -/
theorem C4_field_order_witness :
    msgTags (build_raw inC4)
      = [TAG_BEGIN_STRING, TAG_BODY_LENGTH, TAG_MSG_TYPE, TAG_SENDER_COMP,
         TAG_TARGET_COMP, TAG_MSG_SEQ_NUM, TAG_SENDING_TIME, TAG_CL_ORD_ID,
         TAG_HANDL_INST, TAG_SYMBOL, TAG_SIDE, TAG_TRANSACT_TIME,
         TAG_ORDER_QTY, TAG_ORD_TYPE, TAG_PRICE, TAG_CHECKSUM].map pyStrInt
    ∧ tagValue (build_raw inC4) TAG_MSG_TYPE = some (("D").data)
    ∧ tagValue (build_raw inC4) TAG_HANDL_INST = some (pyStrNat 1)
    ∧ tagValue (build_raw inC4) TAG_ORD_TYPE = some (pyStrNat 2) :=
  C4_field_order inC4 (by decide)

/-- C5: successive `next_seq` calls return values that increase by
exactly one, every returned value is positive, the very first value is
the initial state plus one, and after a reset the next call returns the
same value as the very first call did. -/
theorem C5_sequence :
    seqVal 0 = SEQ_INIT + 1
    ∧ (∀ k, seqVal (k + 1) = seqVal k + 1)
    ∧ (∀ k, 0 < seqVal k)
    ∧ (∀ s, (next_seq (reset_seq s)).1 = seqVal 0) := by
  refine ⟨rfl, fun k => ?_, fun k => ?_, fun s => rfl⟩ <;> simp [seqVal_eq]

/-- C6, counterexample: the round-trip claim fails on a fractional
quantity — building with quantity 100.5 and parsing the OrderQty field
back recovers 100, not the original quantity. -/
theorem C6_counterexample :
    inC6x.qty = (201 : Rat) / 2
    ∧ ((tagValue (build_raw inC6x) TAG_ORDER_QTY).bind parseInt).map (fun i => (i : Rat))
        = some 100
    ∧ ((100 : Rat)) ≠ (201 : Rat) / 2 := by
  refine ⟨rfl, ?_, by with_unfolding_all decide⟩
  with_unfolding_all decide

/-- C6 (amended): splitting a built message on the delimiter byte and
parsing the `tag=value` pairs recovers the original symbol, side,
quantity and price, provided the free-form inputs carry no delimiter
byte, the quantity is integral (unchanged by `int` truncation), and the
price is an exact multiple of one ten-thousandth (so that the 4-digit
fixed-point rendering is lossless). -/
theorem C6_roundtrip (a : BuildIn) (h : okInputs a)
    (hq : ((pyInt a.qty : Int) : Rat) = a.qty)
    (hp : ∃ k : Nat, a.price = (k : Rat) / 10000) :
    tagValue (build_raw a) TAG_SYMBOL = some a.symbol
    ∧ (tagValue (build_raw a) TAG_SIDE).bind parseInt = some a.side
    ∧ ((tagValue (build_raw a) TAG_ORDER_QTY).bind parseInt).map (fun i => (i : Rat))
        = some a.qty
    ∧ (tagValue (build_raw a) TAG_PRICE).bind parsePrice = some a.price := by
  obtain ⟨k, hk⟩ := hp
  refine ⟨tagValue_symbol a h, ?_, ?_, ?_⟩
  · rw [tagValue_side a h]
    show parseInt (pyStrInt a.side) = some a.side
    exact parseInt_pyStrInt a.side
  · rw [tagValue_orderQty a h]
    show (parseInt (pyStrInt (pyInt a.qty))).map (fun i => (i : Rat)) = some a.qty
    rw [parseInt_pyStrInt]
    show some ((pyInt a.qty : Int) : Rat) = some a.qty
    rw [hq]
  · rw [tagValue_price a h, hk]
    show parsePrice (format4 ((k : Rat) / 10000)) = some ((k : Rat) / 10000)
    exact parsePrice_format4 k

/-- C6, witness for the amended round-trip at a concrete order with
integral quantity 100 and price 150.1234. -/
theorem C6_roundtrip_witness :
    tagValue (build_raw inC6w) TAG_SYMBOL = some inC6w.symbol
    ∧ (tagValue (build_raw inC6w) TAG_SIDE).bind parseInt = some inC6w.side
    ∧ ((tagValue (build_raw inC6w) TAG_ORDER_QTY).bind parseInt).map (fun i => (i : Rat))
        = some inC6w.qty
    ∧ (tagValue (build_raw inC6w) TAG_PRICE).bind parsePrice = some inC6w.price :=
  C6_roundtrip inC6w (by decide) (by with_unfolding_all decide) ⟨1501234, rfl⟩

/-- C7: when the connection and send succeed but the read times out,
the worker reports the informational line "No response (timeout) —
message delivered." with the info tag — never the error label or tag —
and the connection is closed. -/
theorem C7_timeout_informational (host port : String) :
    worker_report host port (NetResult.ok RecvResult.timeout)
      = (⟨"INFO", "info", "No response (timeout) — message delivered."⟩, true)
    ∧ (worker_report host port (NetResult.ok RecvResult.timeout)).1.tag ≠ "err"
    ∧ (worker_report host port (NetResult.ok RecvResult.timeout)).1.label ≠ "ERROR"
    ∧ (worker_report host port (NetResult.ok RecvResult.timeout)).2 = true := by
  refine ⟨rfl, ?_, ?_, rfl⟩
  · show ("info" : String) ≠ "err"
    decide
  · show ("INFO" : String) ≠ "ERROR"
    decide

/-- C8: the field encoder renders exactly the decimal tag, `=`, the
value, and a single trailing delimiter byte; when the value itself is
free of the delimiter the delimiter occurs exactly once in the encoded
field.  (As a Lean function, `fld` is pure by construction.) -/
theorem C8_field_encoding (tag : Int) (val : PyStr) (h : sohFree val) :
    fld tag val = pyStrInt tag ++ '=' :: val ++ [SOHc]
    ∧ (fld tag val).count SOHc = 1 := by
  constructor
  · simp [fld, SOH]
  · rw [fld]
    have h1 : (pyStrInt tag).count SOHc = 0 := List.count_eq_zero.mpr (sohFree_pyStrInt tag)
    have h2 : val.count SOHc = 0 := List.count_eq_zero.mpr h
    have h4 : (SOH).count SOHc = 1 := by decide
    have h5 : ¬ ('=' : Char) = SOHc := by decide
    simp [List.count_append, List.count_cons, h1, h2, h4, h5]

/-- C8, witness: the Symbol field for AAPL. -/
theorem C8_field_encoding_witness :
    fld 55 (("AAPL").data) = pyStrInt 55 ++ '=' :: ("AAPL").data ++ [SOHc]
    ∧ (fld 55 (("AAPL").data)).count SOHc = 1 :=
  C8_field_encoding 55 (("AAPL").data) (by decide)

/-- C9: the OrderQty field carries the quantity truncated toward zero
by Python `int`, and (for a positive price) the Price field is an
integer part, a dot, and exactly four fractional digits. -/
theorem C9_qty_price_format (a : BuildIn) (h : okInputs a) (hpos : 0 < a.price) :
    tagValue (build_raw a) TAG_ORDER_QTY = some (pyStrInt (pyInt a.qty))
    ∧ ∃ ip : PyStr, tagValue (build_raw a) TAG_PRICE
        = some (ip ++ '.' :: frac4 ((rhe (a.price * 10000)).toNat % 10000))
      ∧ (frac4 ((rhe (a.price * 10000)).toNat % 10000)).length = 4
      ∧ ('.' : Char) ∉ ip := by
  refine ⟨tagValue_orderQty a h,
    pyStrNat ((rhe (a.price * 10000)).toNat / 10000), ?_, rfl, ?_⟩
  · rw [tagValue_price a h, format4_of_nonneg (not_lt.mpr hpos.le)]
  · intro hmem
    exact absurd (mem_pyStrNat hmem).1 (by decide)

/-- C9, witness: at quantity 100.7 the OrderQty field is the three
bytes `100` — the fractional part is silently dropped — the builder
still returns a message, and the Price field has its four fractional
digits. -/
theorem C9_qty_price_format_witness :
    (tagValue (build_raw inC9) TAG_ORDER_QTY = some (pyStrInt (pyInt inC9.qty))
     ∧ ∃ ip : PyStr, tagValue (build_raw inC9) TAG_PRICE
          = some (ip ++ '.' :: frac4 ((rhe (inC9.price * 10000)).toNat % 10000))
        ∧ (frac4 ((rhe (inC9.price * 10000)).toNat % 10000)).length = 4
        ∧ ('.' : Char) ∉ ip)
    ∧ pyStrInt (pyInt inC9.qty) = ['1', '0', '0']
    ∧ (build_new_order_single inC9).isSome = true :=
  ⟨C9_qty_price_format inC9 (by decide) (by decide),
   by with_unfolding_all decide, by with_unfolding_all decide⟩

/-- C10: every message the builder returns consists solely of ASCII
byte values, and whenever the sender, target or symbol contains a
non-ASCII character the builder raises (returns no message) instead. -/
theorem C10_ascii_totality (a : BuildIn) :
    (∀ bs, build_new_order_single a = some bs → ∀ b ∈ bs, b < 128)
    ∧ (∀ c : Char, (c ∈ a.sender ∨ c ∈ a.target ∨ c ∈ a.symbol) →
        128 ≤ c.toNat → build_new_order_single a = none) := by
  constructor
  · intro bs hbs b hb
    rw [build_new_order_single, encodeAscii] at hbs
    split at hbs
    case isTrue hall =>
      cases Option.some_inj.mp hbs
      obtain ⟨c, hc, rfl⟩ := List.mem_map.mp hb
      exact of_decide_eq_true (List.all_eq_true.mp hall c hc)
    case isFalse => cases hbs
  · intro c hmem hge
    have hc : c ∈ build_raw a := inputs_mem_build a c hmem
    rw [build_new_order_single, encodeAscii, if_neg]
    intro hall
    exact absurd (of_decide_eq_true (List.all_eq_true.mp hall c hc)) (by omega)

/-- C10, witness: a symbol containing the non-ASCII character Ä makes
the builder return no message. -/
theorem C10_ascii_totality_witness : build_new_order_single inC10 = none :=
  (C10_ascii_totality inC10).2 'Ä' (Or.inr (Or.inr (by decide))) (by decide)

end FixClient
